import Mathlib

/-
Verification of the CSS selector builder (src/05-objects-tasks.js).

The JavaScript code is shallowly embedded as follows.
`Selector` (the spec's SimpleSelector) holds the six part groups; the JS
fields `element`, `id`, `pseudoElement` hold either `null` or a string and
are only ever inspected for truthiness (both `null` and `''` are falsy and
render nothing), so they are modelled as `String` with `""` standing for
`null`.  JS exceptions are modelled with `Except`: a failing builder method
returns `.error (kind, b')` where `b'` is the builder state left behind by
the throwing method (the JS code mutates `this` before throwing).
JS methods that mutate `this` return the updated value explicitly.
-/

structure Selector where
  element : String
  id : String
  classes : List String
  attributes : List String
  pseudoClasses : List String
  pseudoElement : String
deriving DecidableEq, Repr

/-- The state built by `new Selector()` (all fields null / empty). -/
def Selector.empty : Selector := ⟨"", "", [], [], [], ""⟩

/-- `Array.prototype.join(sep)` as used by the source on string arrays. -/
def joinSep (sep : String) : List String → String
  | [] => ""
  | [a] => a
  | a :: b :: rest => a ++ sep ++ joinSep sep (b :: rest)

/-- The string computed by `Selector.stringify` before it resets the fields:
each group is appended only when truthy (non-empty). -/
def Selector.renderText (s : Selector) : String :=
  (if s.element = "" then "" else s.element) ++
  (if s.id = "" then "" else "#" ++ s.id) ++
  (if s.classes.isEmpty then "" else "." ++ joinSep "." s.classes) ++
  (if s.attributes.isEmpty then "" else "[" ++ joinSep "][" s.attributes ++ "]") ++
  (if s.pseudoClasses.isEmpty then "" else ":" ++ joinSep ":" s.pseudoClasses) ++
  (if s.pseudoElement = "" then "" else "::" ++ s.pseudoElement)

/-- `Selector.stringify`: returns the rendered text and the selector after the
method reset every field to null / empty. -/
def Selector.stringify (s : Selector) : String × Selector :=
  (s.renderText, Selector.empty)

structure Builder where
  order : Int
  current : Selector
  combined : String
deriving DecidableEq, Repr

/-- The state built by the `Builder` constructor. -/
def Builder.fresh : Builder := ⟨-1, Selector.empty, ""⟩

/-- The two error kinds thrown by the builder. -/
inductive Err where
  | orderViolation
  | duplicateSingleton
deriving DecidableEq, Repr

/-- The `Error` messages of the source, per error kind. -/
def Err.message : Err → String
  | .orderViolation => "Selector parts should be arranged in the following order: element, id, class, attribute, pseudo-class, pseudo-element"
  | .duplicateSingleton => "Element, id and pseudo-element should not occur more then one time inside the selector"

/-- The mutation `throwOrderError` and `checkPropertyExistance` perform on
`this` before throwing: `order = -1`, `current = new Selector()`. -/
def Builder.resetOnError (b : Builder) : Builder :=
  { b with order := -1, current := Selector.empty }

/-- `Builder.stringify`: `combined || current.stringify()`, then reset `order`
and `combined`.  When `combined` is non-empty (truthy) the accumulator is not
rendered and hence not reset. -/
def Builder.stringify (b : Builder) : String × Builder :=
  if b.combined = "" then
    ((b.current.stringify).1,
      { order := -1, current := (b.current.stringify).2, combined := "" })
  else
    (b.combined, { b with order := -1, combined := "" })

/-- `Builder.element` (weight 0). -/
def Builder.element (b : Builder) (v : String) : Except (Err × Builder) Builder :=
  if b.order > 0 then .error (.orderViolation, b.resetOnError)
  else if b.current.element ≠ "" then .error (.duplicateSingleton, b.resetOnError)
  else .ok { b with current := { b.current with element := v }, order := 0 }

/-- `Builder.id` (weight 1). -/
def Builder.id (b : Builder) (v : String) : Except (Err × Builder) Builder :=
  if b.order > 1 then .error (.orderViolation, b.resetOnError)
  else if b.current.id ≠ "" then .error (.duplicateSingleton, b.resetOnError)
  else .ok { b with current := { b.current with id := v }, order := 1 }

/-- `Builder.class` (weight 2, no cardinality check). -/
def Builder.«class» (b : Builder) (v : String) : Except (Err × Builder) Builder :=
  if b.order > 2 then .error (.orderViolation, b.resetOnError)
  else .ok { b with current := { b.current with classes := b.current.classes ++ [v] }, order := 2 }

/-- `Builder.attr` (weight 3, no cardinality check). -/
def Builder.attr (b : Builder) (v : String) : Except (Err × Builder) Builder :=
  if b.order > 3 then .error (.orderViolation, b.resetOnError)
  else .ok { b with current := { b.current with attributes := b.current.attributes ++ [v] }, order := 3 }

/-- `Builder.pseudoClass` (weight 4, no cardinality check). -/
def Builder.pseudoClass (b : Builder) (v : String) : Except (Err × Builder) Builder :=
  if b.order > 4 then .error (.orderViolation, b.resetOnError)
  else .ok { b with current := { b.current with pseudoClasses := b.current.pseudoClasses ++ [v] }, order := 4 }

/-- `Builder.pseudoElement` (weight 5). -/
def Builder.pseudoElement (b : Builder) (v : String) : Except (Err × Builder) Builder :=
  if b.order > 5 then .error (.orderViolation, b.resetOnError)
  else if b.current.pseudoElement ≠ "" then .error (.duplicateSingleton, b.resetOnError)
  else .ok { b with current := { b.current with pseudoElement := v }, order := 5 }

/-- `Builder.combine`: renders both operands (mutating them) and stores the
space-padded combination.  Returns the updated receiver together with the
post-render states of the two operands. -/
def Builder.combine (b : Builder) (s1 : Builder) (comb : String) (s2 : Builder) :
    Builder × Builder × Builder :=
  ({ b with combined := (s1.stringify).1 ++ " " ++ comb ++ " " ++ (s2.stringify).1 },
   (s1.stringify).2, (s2.stringify).2)

/-
The `cssSelectorBuilder` facade: every function starts from
`new Builder()`, i.e. `Builder.fresh`.
-/
namespace CSS

def element (v : String) : Except (Err × Builder) Builder := Builder.fresh.element v

def id (v : String) : Except (Err × Builder) Builder := Builder.fresh.id v

def «class» (v : String) : Except (Err × Builder) Builder := Builder.fresh.«class» v

def attr (v : String) : Except (Err × Builder) Builder := Builder.fresh.attr v

def pseudoClass (v : String) : Except (Err × Builder) Builder := Builder.fresh.pseudoClass v

def pseudoElement (v : String) : Except (Err × Builder) Builder := Builder.fresh.pseudoElement v

def combine (s1 : Builder) (comb : String) (s2 : Builder) : Builder × Builder × Builder :=
  Builder.fresh.combine s1 comb s2

end CSS

/-- The six part kinds, for quantifying over chains of builder calls. -/
inductive PartKind where
  | element
  | id
  | «class»
  | attr
  | pseudoClass
  | pseudoElement
deriving DecidableEq, Repr

/-- The `weight` constant of each builder method. -/
def PartKind.rank : PartKind → Int
  | .element => 0
  | .id => 1
  | .«class» => 2
  | .attr => 3
  | .pseudoClass => 4
  | .pseudoElement => 5

/-- The three cardinality-one kinds. -/
def PartKind.isSingleton : PartKind → Bool
  | .element => true
  | .id => true
  | .pseudoElement => true
  | _ => false

/-- Dispatch a part-adding call by kind. -/
def callPart (k : PartKind) (b : Builder) (v : String) : Except (Err × Builder) Builder :=
  match k with
  | .element => b.element v
  | .id => b.id v
  | .«class» => b.«class» v
  | .attr => b.attr v
  | .pseudoClass => b.pseudoClass v
  | .pseudoElement => b.pseudoElement v

/-- Run a chain of part-adding calls; a thrown error aborts the chain. -/
def runChain (b : Builder) : List (PartKind × String) → Except (Err × Builder) Builder
  | [] => .ok b
  | p :: rest =>
    match callPart p.1 b p.2 with
    | .ok b' => runChain b' rest
    | .error e => .error e

/-- Chain of `n` calls of one kind, for the repeatable-kind claims. -/
def chainOf (k : PartKind) (vs : List String) : List (PartKind × String) :=
  vs.map (fun v => (k, v))

/-- The singleton field the `checkPropertyExistance(prop)` call inspects
(`""` models a null field; repeatable kinds have no such field). -/
def sfield (k : PartKind) (s : Selector) : String :=
  match k with
  | .element => s.element
  | .id => s.id
  | .pseudoElement => s.pseudoElement
  | _ => ""

/-- The mutation a successful part-adding call performs on the accumulator. -/
def applyPart (s : Selector) : PartKind × String → Selector
  | (.element, v) => { s with element := v }
  | (.id, v) => { s with id := v }
  | (.«class», v) => { s with classes := s.classes ++ [v] }
  | (.attr, v) => { s with attributes := s.attributes ++ [v] }
  | (.pseudoClass, v) => { s with pseudoClasses := s.pseudoClasses ++ [v] }
  | (.pseudoElement, v) => { s with pseudoElement := v }

/-- Accumulator state after a whole chain of successful part-adding calls. -/
def applyAll (s : Selector) (chain : List (PartKind × String)) : Selector :=
  chain.foldl applyPart s

/-- The values of one kind occurring in a chain, in call order. -/
def kindValues (k : PartKind) : List (PartKind × String) → List String
  | [] => []
  | p :: rest => if p.1 = k then p.2 :: kindValues k rest else kindValues k rest

/-- The ranks of the calls of a chain are non-decreasing. -/
def ranksNonDecr : List (PartKind × String) → Bool
  | [] => true
  | [_] => true
  | p :: q :: rest => decide (p.1.rank ≤ q.1.rank) && ranksNonDecr (q :: rest)

/-- Each cardinality-one kind occurs at most once in the chain. -/
def singletonsOnce (chain : List (PartKind × String)) : Bool :=
  decide ((kindValues .element chain).length ≤ 1) &&
  decide ((kindValues .id chain).length ≤ 1) &&
  decide ((kindValues .pseudoElement chain).length ≤ 1)

/-- Every value supplied by the chain is a non-empty string (the spec's input
contract for part-adding calls). -/
def valuesNonEmpty (chain : List (PartKind × String)) : Bool :=
  chain.all (fun p => p.2 != "")

/-- Concatenation of a list of strings, in order. -/
def strConcat : List String → String
  | [] => ""
  | x :: xs => x ++ strConcat xs

/-- Written from the spec's words (refinement side of the rendering claim):
the ordered concatenation of the element name, then one piece per id,
class, attribute clause, pseudo-class and pseudo-element of the chain, each
in its canonical syntax and in insertion order, absent groups contributing
nothing. -/
def specCanonicalRender (chain : List (PartKind × String)) : String :=
  strConcat (kindValues .element chain) ++
  strConcat ((kindValues .id chain).map (fun v => "#" ++ v)) ++
  strConcat ((kindValues .«class» chain).map (fun v => "." ++ v)) ++
  strConcat ((kindValues .attr chain).map (fun v => "[" ++ v ++ "]")) ++
  strConcat ((kindValues .pseudoClass chain).map (fun v => ":" ++ v)) ++
  strConcat ((kindValues .pseudoElement chain).map (fun v => "::" ++ v))

/-- A delimited join equals the concatenation of individually wrapped items:
with separator `q ++ p`, wrapping the whole join in `p … q` is the same as
wrapping every item. -/
theorem joinSep_wrap (p q : String) :
    ∀ l : List String, l ≠ [] →
      p ++ joinSep (q ++ p) l ++ q = strConcat (l.map (fun v => p ++ v ++ q)) := by
  intro l
  induction l with
  | nil => intro h; cases h rfl
  | cons a t ih =>
    intro _
    cases t with
    | nil =>
      simp [joinSep, strConcat, String.append_empty]
    | cons b t' =>
      have h2 := ih (List.cons_ne_nil b t')
      simp only [joinSep, List.map_cons, strConcat] at h2 ⊢
      rw [← h2]
      simp [String.append_assoc]

/-- Specialisation of `joinSep_wrap` to a pure item prefix (empty suffix). -/
theorem joinSep_wrapPre (p : String) (l : List String) (h : l ≠ []) :
    p ++ joinSep p l = strConcat (l.map (fun v => p ++ v)) := by
  have h2 := joinSep_wrap p "" l h
  simpa [String.append_empty, String.empty_append] using h2

/-- A list of length at most one is empty or a singleton. -/
theorem length_le_one_cases (l : List String) (h : l.length ≤ 1) :
    l = [] ∨ ∃ v, l = [v] := by
  cases l with
  | nil => exact Or.inl rfl
  | cons a t =>
    cases t with
    | nil => exact Or.inr ⟨a, rfl⟩
    | cons b t' => simp at h

/-- Chains keep the accumulated class list and append their class values. -/
theorem applyAll_classes (chain : List (PartKind × String)) :
    ∀ s : Selector, (applyAll s chain).classes = s.classes ++ kindValues .«class» chain := by
  induction chain with
  | nil => intro s; simp [applyAll, kindValues]
  | cons p rest ih =>
    intro s
    obtain ⟨k, v⟩ := p
    simp only [applyAll, List.foldl_cons] at ih ⊢
    rw [ih]
    cases k <;> simp [applyPart, kindValues]

/-- Chains keep the accumulated attribute list and append their attr values. -/
theorem applyAll_attributes (chain : List (PartKind × String)) :
    ∀ s : Selector, (applyAll s chain).attributes = s.attributes ++ kindValues .attr chain := by
  induction chain with
  | nil => intro s; simp [applyAll, kindValues]
  | cons p rest ih =>
    intro s
    obtain ⟨k, v⟩ := p
    simp only [applyAll, List.foldl_cons] at ih ⊢
    rw [ih]
    cases k <;> simp [applyPart, kindValues]

/-- Chains keep the accumulated pseudo-class list and append their values. -/
theorem applyAll_pseudoClasses (chain : List (PartKind × String)) :
    ∀ s : Selector, (applyAll s chain).pseudoClasses = s.pseudoClasses ++ kindValues .pseudoClass chain := by
  induction chain with
  | nil => intro s; simp [applyAll, kindValues]
  | cons p rest ih =>
    intro s
    obtain ⟨k, v⟩ := p
    simp only [applyAll, List.foldl_cons] at ih ⊢
    rw [ih]
    cases k <;> simp [applyPart, kindValues]

/-- The element field after a chain is the last supplied element value. -/
theorem applyAll_element (chain : List (PartKind × String)) :
    ∀ s : Selector,
      (applyAll s chain).element = (kindValues .element chain).foldl (fun _ v => v) s.element := by
  induction chain with
  | nil => intro s; simp [applyAll, kindValues]
  | cons p rest ih =>
    intro s
    obtain ⟨k, v⟩ := p
    simp only [applyAll, List.foldl_cons] at ih ⊢
    rw [ih]
    cases k <;> simp [applyPart, kindValues]

/-- The id field after a chain is the last supplied id value. -/
theorem applyAll_id (chain : List (PartKind × String)) :
    ∀ s : Selector,
      (applyAll s chain).id = (kindValues .id chain).foldl (fun _ v => v) s.id := by
  induction chain with
  | nil => intro s; simp [applyAll, kindValues]
  | cons p rest ih =>
    intro s
    obtain ⟨k, v⟩ := p
    simp only [applyAll, List.foldl_cons] at ih ⊢
    rw [ih]
    cases k <;> simp [applyPart, kindValues]

/-- The pseudo-element field after a chain is the last supplied value. -/
theorem applyAll_pseudoElement (chain : List (PartKind × String)) :
    ∀ s : Selector,
      (applyAll s chain).pseudoElement =
        (kindValues .pseudoElement chain).foldl (fun _ v => v) s.pseudoElement := by
  induction chain with
  | nil => intro s; simp [applyAll, kindValues]
  | cons p rest ih =>
    intro s
    obtain ⟨k, v⟩ := p
    simp only [applyAll, List.foldl_cons] at ih ⊢
    rw [ih]
    cases k <;> simp [applyPart, kindValues]

/-- Every part rank is non-negative. -/
theorem rank_nonneg (k : PartKind) : 0 ≤ k.rank := by
  cases k <;> simp [PartKind.rank]

/-- All singleton fields of a fresh accumulator are unset. -/
theorem sfield_empty (k : PartKind) : sfield k Selector.empty = "" := by
  cases k <;> rfl

/-- A part-adding call of a different kind leaves a singleton field alone. -/
theorem sfield_applyPart_ne (k k' : PartKind) (s : Selector) (v : String)
    (h : k' ≠ k) : sfield k' (applyPart s (k, v)) = sfield k' s := by
  cases k <;> cases k' <;> simp_all [sfield, applyPart]

/-- A part-adding call whose rank is admissible and whose singleton slot (if
any) is unset succeeds and performs exactly the `applyPart` mutation. -/
theorem callPart_ok (k : PartKind) (b : Builder) (v : String)
    (hord : b.order ≤ k.rank)
    (hf : k.isSingleton = true → sfield k b.current = "") :
    callPart k b v = .ok { b with order := k.rank, current := applyPart b.current (k, v) } := by
  cases k
  case element =>
    have h1 := hf rfl
    simp only [callPart, Builder.element, PartKind.rank, applyPart, sfield] at h1 hord ⊢
    rw [if_neg (by omega), if_neg (by simp [h1])]
  case id =>
    have h1 := hf rfl
    simp only [callPart, Builder.id, PartKind.rank, applyPart, sfield] at h1 hord ⊢
    rw [if_neg (by omega), if_neg (by simp [h1])]
  case «class» =>
    simp only [callPart, Builder.«class», PartKind.rank, applyPart] at hord ⊢
    rw [if_neg (by omega)]
  case attr =>
    simp only [callPart, Builder.attr, PartKind.rank, applyPart] at hord ⊢
    rw [if_neg (by omega)]
  case pseudoClass =>
    simp only [callPart, Builder.pseudoClass, PartKind.rank, applyPart] at hord ⊢
    rw [if_neg (by omega)]
  case pseudoElement =>
    have h1 := hf rfl
    simp only [callPart, Builder.pseudoElement, PartKind.rank, applyPart, sfield] at h1 hord ⊢
    rw [if_neg (by omega), if_neg (by simp [h1])]

/-- Tail of a rank-sorted chain is rank-sorted. -/
theorem ranksNonDecr_tail {p : PartKind × String} {rest : List (PartKind × String)}
    (h : ranksNonDecr (p :: rest) = true) : ranksNonDecr rest = true := by
  cases rest with
  | nil => rfl
  | cons q t =>
    simp only [ranksNonDecr, Bool.and_eq_true] at h
    exact h.2

/-- Adjacent ranks of a rank-sorted chain are ordered. -/
theorem ranksNonDecr_head {p q : PartKind × String} {t : List (PartKind × String)}
    (h : ranksNonDecr (p :: q :: t) = true) : p.1.rank ≤ q.1.rank := by
  simp only [ranksNonDecr, Bool.and_eq_true, decide_eq_true_eq] at h
  exact h.1

/-- Occurrence bound for one singleton kind, read off `singletonsOnce`. -/
theorem singletonsOnce_spec {chain : List (PartKind × String)}
    (h : singletonsOnce chain = true) (k : PartKind) (hk : k.isSingleton = true) :
    (kindValues k chain).length ≤ 1 := by
  simp only [singletonsOnce, Bool.and_eq_true, decide_eq_true_eq] at h
  cases k <;> simp only [PartKind.isSingleton] at hk <;> tauto

/-- Tail of a chain respecting the singleton bound still respects it. -/
theorem singletonsOnce_tail {p : PartKind × String} {rest : List (PartKind × String)}
    (h : singletonsOnce (p :: rest) = true) : singletonsOnce rest = true := by
  simp only [singletonsOnce, Bool.and_eq_true, decide_eq_true_eq] at h ⊢
  obtain ⟨⟨h1, h2⟩, h3⟩ := h
  have key : ∀ k' : PartKind, (kindValues k' (p :: rest)).length ≤ 1 →
      (kindValues k' rest).length ≤ 1 := by
    intro k' h'
    by_cases hpk : p.1 = k'
    · simp only [kindValues, if_pos hpk, List.length_cons] at h'
      omega
    · simpa only [kindValues, if_neg hpk] using h'
  exact ⟨⟨key _ h1, key _ h2⟩, key _ h3⟩

/-- Tail of a chain with non-empty values has non-empty values. -/
theorem valuesNonEmpty_tail {p : PartKind × String} {rest : List (PartKind × String)}
    (h : valuesNonEmpty (p :: rest) = true) : valuesNonEmpty rest = true := by
  simp only [valuesNonEmpty, List.all_cons, Bool.and_eq_true] at h
  exact h.2

/-- Every value collected from a non-empty-valued chain is non-empty. -/
theorem kindValues_ne_empty (k : PartKind) :
    ∀ chain : List (PartKind × String), valuesNonEmpty chain = true →
      ∀ v ∈ kindValues k chain, v ≠ "" := by
  intro chain
  induction chain with
  | nil => intro _ v hm; simp [kindValues] at hm
  | cons p rest ih =>
    intro hv v hm
    have hp : p.2 ≠ "" := by
      simp only [valuesNonEmpty, List.all_cons, Bool.and_eq_true, bne_iff_ne, ne_eq] at hv
      exact hv.1
    by_cases hpk : p.1 = k
    · simp only [kindValues, if_pos hpk, List.mem_cons] at hm
      rcases hm with hm | hm
      · exact hm ▸ hp
      · exact ih (valuesNonEmpty_tail hv) v hm
    · simp only [kindValues, if_neg hpk] at hm
      exact ih (valuesNonEmpty_tail hv) v hm

/-- Main chain invariant: a rank-sorted chain with at most one occurrence of
each singleton kind runs without error from any builder whose recorded rank
admits the first call and whose relevant singleton slots are unset; the final
accumulator is the pure fold of the parts and `combined` is untouched. -/
theorem runChain_ok_aux :
    ∀ (chain : List (PartKind × String)) (b : Builder),
      ranksNonDecr chain = true →
      singletonsOnce chain = true →
      (∀ q t, chain = q :: t → b.order ≤ q.1.rank) →
      (∀ k : PartKind, k.isSingleton = true → kindValues k chain ≠ [] →
        sfield k b.current = "") →
      ∃ b', runChain b chain = .ok b' ∧
        b'.current = applyAll b.current chain ∧ b'.combined = b.combined := by
  intro chain
  induction chain with
  | nil =>
    intro b _ _ _ _
    exact ⟨b, rfl, rfl, rfl⟩
  | cons p rest ih =>
    intro b hnd hso hhead hsf
    obtain ⟨k, v⟩ := p
    have hord : b.order ≤ k.rank := hhead (k, v) rest rfl
    have hcall := callPart_ok k b v hord
      (fun hs => hsf k hs (by simp [kindValues]))
    have hstep := ih { b with order := k.rank, current := applyPart b.current (k, v) }
      (ranksNonDecr_tail hnd) (singletonsOnce_tail hso)
      (by
        intro q t hrt
        subst hrt
        exact ranksNonDecr_head hnd)
      (by
        intro k' hs' hne'
        by_cases hkk : k' = k
        · subst hkk
          exfalso
          have hlen := singletonsOnce_spec hso k' hs'
          rw [show kindValues k' ((k', v) :: rest) = v :: kindValues k' rest from by
            simp [kindValues]] at hlen
          simp only [List.length_cons] at hlen
          exact hne' (List.eq_nil_of_length_eq_zero (by omega))
        · have heq : sfield k' (applyPart b.current (k, v)) = sfield k' b.current :=
            sfield_applyPart_ne k k' b.current v hkk
          rw [heq]
          exact hsf k' hs' (by simpa [kindValues, Ne.symm hkk] using hne'))
    obtain ⟨b', hrun, hcur, hcomb⟩ := hstep
    refine ⟨b', ?_, ?_, hcomb⟩
    · simp only [runChain, hcall]
      exact hrun
    · simpa only [applyAll, List.foldl_cons] using hcur

/-- Rendering the accumulator built by a valid chain yields the canonical
concatenation stated by the spec. -/
theorem render_applyAll (chain : List (PartKind × String))
    (hso : singletonsOnce chain = true) (hv : valuesNonEmpty chain = true) :
    (applyAll Selector.empty chain).renderText = specCanonicalRender chain := by
  have g1 : (if (applyAll Selector.empty chain).element = "" then ""
      else (applyAll Selector.empty chain).element) =
      strConcat (kindValues .element chain) := by
    rw [applyAll_element]
    rcases length_le_one_cases _ (singletonsOnce_spec hso .element rfl) with h | ⟨v, h⟩
    · rw [h]; rfl
    · have hv' : v ≠ "" := kindValues_ne_empty _ chain hv v (by rw [h]; exact List.mem_singleton_self v)
      rw [h]
      simp [strConcat, hv', String.append_empty]
  have g2 : (if (applyAll Selector.empty chain).id = "" then ""
      else "#" ++ (applyAll Selector.empty chain).id) =
      strConcat ((kindValues .id chain).map (fun v => "#" ++ v)) := by
    rw [applyAll_id]
    rcases length_le_one_cases _ (singletonsOnce_spec hso .id rfl) with h | ⟨v, h⟩
    · rw [h]; rfl
    · have hv' : v ≠ "" := kindValues_ne_empty _ chain hv v (by rw [h]; exact List.mem_singleton_self v)
      rw [h]
      simp [strConcat, hv', String.append_empty]
  have g3 : (if (applyAll Selector.empty chain).classes.isEmpty then ""
      else "." ++ joinSep "." (applyAll Selector.empty chain).classes) =
      strConcat ((kindValues .«class» chain).map (fun v => "." ++ v)) := by
    rw [applyAll_classes]
    have hbase : Selector.empty.classes ++ kindValues .«class» chain =
        kindValues .«class» chain := List.nil_append _
    rw [hbase]
    cases hc : kindValues .«class» chain with
    | nil => rfl
    | cons a t =>
      rw [if_neg (by simp)]
      exact joinSep_wrapPre "." (a :: t) (List.cons_ne_nil a t)
  have g4 : (if (applyAll Selector.empty chain).attributes.isEmpty then ""
      else "[" ++ joinSep "][" (applyAll Selector.empty chain).attributes ++ "]") =
      strConcat ((kindValues .attr chain).map (fun v => "[" ++ v ++ "]")) := by
    rw [applyAll_attributes]
    have hbase : Selector.empty.attributes ++ kindValues .attr chain =
        kindValues .attr chain := List.nil_append _
    rw [hbase]
    cases hc : kindValues .attr chain with
    | nil => rfl
    | cons a t =>
      rw [if_neg (by simp)]
      have e : ("]" : String) ++ "[" = "][" := rfl
      have h2 := joinSep_wrap "[" "]" (a :: t) (List.cons_ne_nil a t)
      rw [e] at h2
      exact h2
  have g5 : (if (applyAll Selector.empty chain).pseudoClasses.isEmpty then ""
      else ":" ++ joinSep ":" (applyAll Selector.empty chain).pseudoClasses) =
      strConcat ((kindValues .pseudoClass chain).map (fun v => ":" ++ v)) := by
    rw [applyAll_pseudoClasses]
    have hbase : Selector.empty.pseudoClasses ++ kindValues .pseudoClass chain =
        kindValues .pseudoClass chain := List.nil_append _
    rw [hbase]
    cases hc : kindValues .pseudoClass chain with
    | nil => rfl
    | cons a t =>
      rw [if_neg (by simp)]
      exact joinSep_wrapPre ":" (a :: t) (List.cons_ne_nil a t)
  have g6 : (if (applyAll Selector.empty chain).pseudoElement = "" then ""
      else "::" ++ (applyAll Selector.empty chain).pseudoElement) =
      strConcat ((kindValues .pseudoElement chain).map (fun v => "::" ++ v)) := by
    rw [applyAll_pseudoElement]
    rcases length_le_one_cases _ (singletonsOnce_spec hso .pseudoElement rfl) with h | ⟨v, h⟩
    · rw [h]; rfl
    · have hv' : v ≠ "" := kindValues_ne_empty _ chain hv v (by rw [h]; exact List.mem_singleton_self v)
      rw [h]
      simp [strConcat, hv', String.append_empty]
  simp only [Selector.renderText, specCanonicalRender]
  rw [g1, g2, g3, g4, g5, g6]

/-- C1: for every chain of part-adding calls whose kinds have non-decreasing
rank (element 0, id 1, class 2, attribute 3, pseudo-class 4, pseudo-element 5,
each singleton kind occurring at most once and every supplied value a
non-empty string, the spec's input contract), running the chain from a fresh
builder succeeds and the terminal stringify call returns the concatenation,
in fixed order, of the element name, then one hash-prefixed id, dot-prefixed
class per class, bracketed clause per attribute, colon-prefixed name per
pseudo-class and double-colon-prefixed pseudo-element, in insertion order,
absent groups contributing nothing. -/
theorem c1_valid_chain_renders_canonically (chain : List (PartKind × String))
    (h1 : ranksNonDecr chain = true)
    (h2 : singletonsOnce chain = true)
    (h3 : valuesNonEmpty chain = true) :
    ∃ b', runChain Builder.fresh chain = .ok b' ∧
      (b'.stringify).1 = specCanonicalRender chain := by
  obtain ⟨b', hrun, hcur, hcomb⟩ := runChain_ok_aux chain Builder.fresh h1 h2
    (fun q t _ => le_trans (by decide : Builder.fresh.order ≤ (0 : Int)) (rank_nonneg q.1))
    (fun k _ _ => sfield_empty k)
  refine ⟨b', hrun, ?_⟩
  have hc : b'.combined = "" := hcomb
  have hcur' : b'.current = applyAll Selector.empty chain := hcur
  simp only [Builder.stringify, if_pos hc, Selector.stringify]
  rw [hcur']
  exact render_applyAll chain h2 h3

/-- C1 witness: a concrete valid chain using every part kind. -/
theorem c1_witness :
    ∃ b', runChain Builder.fresh
        [(.element, "div"), (.id, "app"), (.«class», "container"),
         (.«class», "draggable"), (.attr, "data-x"), (.pseudoClass, "hover"),
         (.pseudoElement, "first-line")] = .ok b' ∧
      (b'.stringify).1 = specCanonicalRender
        [(.element, "div"), (.id, "app"), (.«class», "container"),
         (.«class», "draggable"), (.attr, "data-x"), (.pseudoClass, "hover"),
         (.pseudoElement, "first-line")] :=
  c1_valid_chain_renders_canonically _ (by decide) (by decide) (by decide)

/-- C2: a part-adding call whose kind rank is strictly below the recorded
rank raises the ordering error and, before raising, resets the builder to the
fresh state: rank set to -1 and the accumulator replaced by a fresh empty
selector. -/
theorem c2_order_violation_resets (b : Builder) (k : PartKind) (v : String)
    (h : k.rank < b.order) :
    callPart k b v = .error (.orderViolation,
      { b with order := -1, current := Selector.empty }) := by
  cases k <;>
    simp only [callPart, Builder.element, Builder.id, Builder.«class», Builder.attr,
      Builder.pseudoClass, Builder.pseudoElement, PartKind.rank,
      Builder.resetOnError] at h ⊢ <;>
    rw [if_pos (by omega)]

/-- C2 witness: adding an element after a class raises the ordering error. -/
theorem c2_witness :
    callPart .element ⟨2, ⟨"", "", ["menu"], [], [], ""⟩, ""⟩ "div" =
      .error (.orderViolation, ⟨-1, Selector.empty, ""⟩) :=
  c2_order_violation_resets ⟨2, ⟨"", "", ["menu"], [], [], ""⟩, ""⟩ .element "div" (by decide)

/-- C3 counterexample: in the chain element, id, element the second element
call raises the ordering error — not the duplicate-singleton error the claim
expects — because the order check runs before the cardinality check. -/
theorem c3_counterexample :
    runChain Builder.fresh [(.element, "div"), (.id, "main"), (.element, "span")] =
      .error (.orderViolation, Builder.fresh) ∧
    Err.orderViolation ≠ Err.duplicateSingleton :=
  ⟨rfl, by decide⟩

/-- C3 amended: a singleton kind (element, id, pseudo-element) supplied a
second time raises the duplicate-singleton error and resets rank and
accumulator exactly when no strictly-higher-rank call intervened, i.e. when
the recorded rank is still at most the kind's rank and the singleton field is
already set; with a strictly-higher-rank call in between, the ordering error
is raised instead. -/
theorem c3_duplicate_singleton_resets (b : Builder) (k : PartKind) (v : String)
    (hs : k.isSingleton = true) (hord : b.order ≤ k.rank)
    (hset : sfield k b.current ≠ "") :
    callPart k b v = .error (.duplicateSingleton,
      { b with order := -1, current := Selector.empty }) := by
  cases k
  case element =>
    simp only [callPart, Builder.element, PartKind.rank, sfield,
      Builder.resetOnError] at hord hset ⊢
    rw [if_neg (by omega), if_pos hset]
  case id =>
    simp only [callPart, Builder.id, PartKind.rank, sfield,
      Builder.resetOnError] at hord hset ⊢
    rw [if_neg (by omega), if_pos hset]
  case pseudoElement =>
    simp only [callPart, Builder.pseudoElement, PartKind.rank, sfield,
      Builder.resetOnError] at hord hset ⊢
    rw [if_neg (by omega), if_pos hset]
  case «class» => exact absurd hs (by decide)
  case attr => exact absurd hs (by decide)
  case pseudoClass => exact absurd hs (by decide)

/-- C3 witness: an immediate repeated element call raises the duplicate
error and resets rank and accumulator. -/
theorem c3_witness :
    callPart .element ⟨0, ⟨"div", "", [], [], [], ""⟩, ""⟩ "span" =
      .error (.duplicateSingleton, ⟨-1, Selector.empty, ""⟩) :=
  c3_duplicate_singleton_resets ⟨0, ⟨"div", "", [], [], [], ""⟩, ""⟩ .element "span"
    rfl (by decide) (by decide)

/-- A space-padded combination is never the empty string. -/
theorem padded_ne_empty (a c b : String) : a ++ " " ++ c ++ " " ++ b ≠ "" := by
  intro h
  have hlen := congrArg String.length h
  simp only [String.length_append] at hlen
  have h1 : (" " : String).length = 1 := rfl
  have h0 : ("" : String).length = 0 := rfl
  rw [h1, h0] at hlen
  omega

/-- C4: a facade combine call renders as the left operand's rendering, one
space, the combinator token, one space, and the right operand's rendering,
for arbitrary operands — including operands that are themselves results of
earlier combines. -/
theorem c4_combine_renders_padded (l : Builder) (c : String) (r : Builder) :
    (((CSS.combine l c r).1).stringify).1 =
      (l.stringify).1 ++ " " ++ c ++ " " ++ (r.stringify).1 := by
  have hb : ((CSS.combine l c r).1).combined =
      (l.stringify).1 ++ " " ++ c ++ " " ++ (r.stringify).1 := rfl
  have hne : ((CSS.combine l c r).1).combined ≠ "" := by
    rw [hb]
    exact padded_ne_empty _ _ _
  rw [show (((CSS.combine l c r).1).stringify).1 = ((CSS.combine l c r).1).combined from by
    simp [Builder.stringify, hne], hb]

/-- After one stringify call, a builder that had no combined text or an empty
accumulator renders the empty string on a second stringify. -/
theorem stringify_twice_empty (b : Builder)
    (h : b.combined = "" ∨ b.current = Selector.empty) :
    (((b.stringify).2).stringify).1 = "" := by
  by_cases hc : b.combined = ""
  · have h2 : (b.stringify).2 = ⟨-1, Selector.empty, ""⟩ := by
      simp [Builder.stringify, hc, Selector.stringify]
    rw [h2]
    rfl
  · rcases h with h | h
    · exact absurd h hc
    · have h2 : (b.stringify).2 = ⟨-1, Selector.empty, ""⟩ := by
        simp [Builder.stringify, hc, h]
      rw [h2]
      rfl

/-- C5 counterexample: a builder reached by a facade combine followed by a
class call renders the combined text, but is then not in the fresh state — a
second stringify returns the leftover class rendering, not the empty
string. -/
theorem c5_counterexample :
    (do
      let a ← CSS.element "a"
      let b ← CSS.element "b"
      let c ← ((CSS.combine a "+" b).1).«class» "x"
      let r1 := c.stringify
      let r2 := (r1.2).stringify
      pure (r1.1, r2.1) : Except (Err × Builder) (String × String)) =
      .ok ("a + b", ".x") ∧ (".x" : String) ≠ "" :=
  ⟨rfl, by decide⟩

/-- C5 amended: after any stringify call the rank is -1 and the combined text
is cleared; the accumulator is replaced by a fresh empty selector exactly when
no combined text was present, and is left untouched otherwise — so a second
stringify returns the empty string whenever the combined text was absent or
the accumulator was empty, which covers every state reached without
part-adding calls after a combine. -/
theorem c5_stringify_resets (b : Builder) :
    ((b.stringify).2).order = -1 ∧ ((b.stringify).2).combined = "" ∧
    (b.combined = "" → ((b.stringify).2).current = Selector.empty) ∧
    (b.combined ≠ "" → ((b.stringify).2).current = b.current) ∧
    ((b.combined = "" ∨ b.current = Selector.empty) →
      (((b.stringify).2).stringify).1 = "") := by
  refine ⟨?_, ?_, ?_, ?_, stringify_twice_empty b⟩
  · by_cases hc : b.combined = "" <;> simp [Builder.stringify, hc]
  · by_cases hc : b.combined = "" <;> simp [Builder.stringify, hc]
  · intro hc; simp [Builder.stringify, hc, Selector.stringify]
  · intro hc; simp [Builder.stringify, hc]

/-- C5 witness: a builder holding only parts renders, resets, and renders
empty the second time. -/
theorem c5_witness :
    ((((⟨2, ⟨"", "", ["x"], [], [], ""⟩, ""⟩ : Builder).stringify).2).stringify).1 = "" :=
  (c5_stringify_resets ⟨2, ⟨"", "", ["x"], [], [], ""⟩, ""⟩).2.2.2.2 (Or.inl rfl)

/-- C6: combine consumes its operands — for operands populated by part-adding
chains (no combined text) or by earlier combines (empty accumulator),
rendering an operand again through the state the combine left behind returns
the empty string. -/
theorem c6_combine_consumes (l : Builder) (c : String) (r : Builder)
    (hl : l.combined = "" ∨ l.current = Selector.empty)
    (hr : r.combined = "" ∨ r.current = Selector.empty) :
    (((CSS.combine l c r).2.1).stringify).1 = "" ∧
    (((CSS.combine l c r).2.2).stringify).1 = "" := by
  constructor
  · have h1 : (CSS.combine l c r).2.1 = (l.stringify).2 := rfl
    rw [h1]
    exact stringify_twice_empty l hl
  · have h2 : (CSS.combine l c r).2.2 = (r.stringify).2 := rfl
    rw [h2]
    exact stringify_twice_empty r hr

/-- C6 witness: combining two populated one-part builders leaves both
operands rendering empty. -/
theorem c6_witness :
    (((CSS.combine ⟨0, ⟨"a", "", [], [], [], ""⟩, ""⟩ "+"
        ⟨1, ⟨"", "b", [], [], [], ""⟩, ""⟩).2.1).stringify).1 = "" ∧
    (((CSS.combine ⟨0, ⟨"a", "", [], [], [], ""⟩, ""⟩ "+"
        ⟨1, ⟨"", "b", [], [], [], ""⟩, ""⟩).2.2).stringify).1 = "" :=
  c6_combine_consumes ⟨0, ⟨"a", "", [], [], [], ""⟩, ""⟩ "+"
    ⟨1, ⟨"", "b", [], [], [], ""⟩, ""⟩ (Or.inl rfl) (Or.inl rfl)

/-- Two selectors with equal fields are equal. -/
theorem Selector.eq_of_fields {x y : Selector}
    (h1 : x.element = y.element) (h2 : x.id = y.id) (h3 : x.classes = y.classes)
    (h4 : x.attributes = y.attributes) (h5 : x.pseudoClasses = y.pseudoClasses)
    (h6 : x.pseudoElement = y.pseudoElement) : x = y := by
  cases x
  cases y
  simp_all

/-- A one-kind chain is rank-sorted. -/
theorem ranksNonDecr_chainOf (k : PartKind) : ∀ vs : List String,
    ranksNonDecr (chainOf k vs) = true := by
  intro vs
  induction vs with
  | nil => rfl
  | cons a t ih =>
    cases t with
    | nil => rfl
    | cons b t' =>
      simp only [chainOf, List.map_cons] at ih ⊢
      simp only [ranksNonDecr, Bool.and_eq_true, decide_eq_true_eq]
      exact ⟨le_refl _, by simpa only [ranksNonDecr] using ih⟩

/-- A one-kind chain collects exactly its values for that kind. -/
theorem kindValues_chainOf_self (k : PartKind) : ∀ vs : List String,
    kindValues k (chainOf k vs) = vs := by
  intro vs
  induction vs with
  | nil => rfl
  | cons a t ih => simp [chainOf, kindValues] at ih ⊢; exact ih

/-- A one-kind chain collects nothing for any other kind. -/
theorem kindValues_chainOf_ne (k k' : PartKind) (h : k' ≠ k) : ∀ vs : List String,
    kindValues k' (chainOf k vs) = [] := by
  intro vs
  induction vs with
  | nil => rfl
  | cons a t ih => simpa [chainOf, kindValues, Ne.symm h] using ih

/-- The head of a one-kind chain has that kind. -/
theorem chainOf_head (k : PartKind) (vs : List String) (q : PartKind × String)
    (t : List (PartKind × String)) (h : chainOf k vs = q :: t) : q.1 = k := by
  cases vs with
  | nil => simp [chainOf] at h
  | cons v t2 =>
    simp only [chainOf, List.map_cons, List.cons.injEq] at h
    rw [← h.1]

/-- A chain of a repeatable kind respects the singleton bound. -/
theorem singletonsOnce_chainOf (k : PartKind) (hk : k.isSingleton = false)
    (vs : List String) : singletonsOnce (chainOf k vs) = true := by
  have h1 : (.element : PartKind) ≠ k := by
    intro h; rw [← h] at hk; exact absurd hk (by decide)
  have h2 : (.id : PartKind) ≠ k := by
    intro h; rw [← h] at hk; exact absurd hk (by decide)
  have h3 : (.pseudoElement : PartKind) ≠ k := by
    intro h; rw [← h] at hk; exact absurd hk (by decide)
  simp [singletonsOnce, kindValues_chainOf_ne k .element h1 vs,
    kindValues_chainOf_ne k .id h2 vs, kindValues_chainOf_ne k .pseudoElement h3 vs]

/-- Running a chain of one repeatable kind succeeds whenever the first call
is admissible. -/
theorem runChain_chainOf_repeatable (b : Builder) (k : PartKind) (vs : List String)
    (hk : k.isSingleton = false) (hord : b.order ≤ k.rank) :
    ∃ b', runChain b (chainOf k vs) = .ok b' ∧
      b'.current = applyAll b.current (chainOf k vs) ∧ b'.combined = b.combined := by
  apply runChain_ok_aux _ _ (ranksNonDecr_chainOf k vs) (singletonsOnce_chainOf k hk vs)
  · intro q t hq
    rw [chainOf_head k vs q t hq]
    exact hord
  · intro k' hs' hne'
    have hne : k' ≠ k := by
      intro h
      rw [h] at hs'
      rw [hs'] at hk
      exact absurd hk (by decide)
    exact absurd (kindValues_chainOf_ne k k' hne vs) hne'

/-- Fold of a pure class chain onto an accumulator. -/
theorem applyAll_chainOf_class (s : Selector) (vs : List String) :
    applyAll s (chainOf .«class» vs) = { s with classes := s.classes ++ vs } := by
  apply Selector.eq_of_fields <;>
    simp [applyAll_element, applyAll_id, applyAll_classes, applyAll_attributes,
      applyAll_pseudoClasses, applyAll_pseudoElement, kindValues_chainOf_self,
      kindValues_chainOf_ne]

/-- Fold of a pure attribute chain onto an accumulator. -/
theorem applyAll_chainOf_attr (s : Selector) (vs : List String) :
    applyAll s (chainOf .attr vs) = { s with attributes := s.attributes ++ vs } := by
  apply Selector.eq_of_fields <;>
    simp [applyAll_element, applyAll_id, applyAll_classes, applyAll_attributes,
      applyAll_pseudoClasses, applyAll_pseudoElement, kindValues_chainOf_self,
      kindValues_chainOf_ne]

/-- Fold of a pure pseudo-class chain onto an accumulator. -/
theorem applyAll_chainOf_pseudoClass (s : Selector) (vs : List String) :
    applyAll s (chainOf .pseudoClass vs) = { s with pseudoClasses := s.pseudoClasses ++ vs } := by
  apply Selector.eq_of_fields <;>
    simp [applyAll_element, applyAll_id, applyAll_classes, applyAll_attributes,
      applyAll_pseudoClasses, applyAll_pseudoElement, kindValues_chainOf_self,
      kindValues_chainOf_ne]

/-- C7: class, attr and pseudoClass may each be invoked any number of times
consecutively without error whenever the first call is admissible for the
recorded rank, appending their values to the accumulator in insertion order
and leaving everything else untouched; from a fresh builder the values appear
in the rendered string in insertion order. -/
theorem c7_repeatable_kinds (b : Builder) (vs : List String) :
    (b.order ≤ 2 → ∃ b', runChain b (chainOf .«class» vs) = .ok b' ∧
      b'.current = { b.current with classes := b.current.classes ++ vs } ∧
      b'.combined = b.combined) ∧
    (b.order ≤ 3 → ∃ b', runChain b (chainOf .attr vs) = .ok b' ∧
      b'.current = { b.current with attributes := b.current.attributes ++ vs } ∧
      b'.combined = b.combined) ∧
    (b.order ≤ 4 → ∃ b', runChain b (chainOf .pseudoClass vs) = .ok b' ∧
      b'.current = { b.current with pseudoClasses := b.current.pseudoClasses ++ vs } ∧
      b'.combined = b.combined) ∧
    (vs ≠ [] → ∃ b', runChain Builder.fresh (chainOf .«class» vs) = .ok b' ∧
      (b'.stringify).1 = strConcat (vs.map (fun v => "." ++ v))) := by
  refine ⟨?_, ?_, ?_, ?_⟩
  · intro hord
    obtain ⟨b', h1, h2, h3⟩ := runChain_chainOf_repeatable b .«class» vs rfl hord
    exact ⟨b', h1, by rw [h2, applyAll_chainOf_class], h3⟩
  · intro hord
    obtain ⟨b', h1, h2, h3⟩ := runChain_chainOf_repeatable b .attr vs rfl hord
    exact ⟨b', h1, by rw [h2, applyAll_chainOf_attr], h3⟩
  · intro hord
    obtain ⟨b', h1, h2, h3⟩ := runChain_chainOf_repeatable b .pseudoClass vs rfl hord
    exact ⟨b', h1, by rw [h2, applyAll_chainOf_pseudoClass], h3⟩
  · intro hvs
    obtain ⟨b', h1, h2, h3⟩ :=
      runChain_chainOf_repeatable Builder.fresh .«class» vs rfl (by decide)
    refine ⟨b', h1, ?_⟩
    have hcur : b'.current = { Selector.empty with classes := vs } := by
      rw [h2, applyAll_chainOf_class]
      simp [Builder.fresh, Selector.empty]
    have hcomb : b'.combined = "" := h3
    simp only [Builder.stringify, if_pos hcomb, Selector.stringify]
    rw [hcur]
    cases vs with
    | nil => exact absurd rfl hvs
    | cons a t =>
      rw [show ({ Selector.empty with classes := a :: t } : Selector).renderText =
          "." ++ joinSep "." (a :: t) from by
        simp [Selector.renderText, Selector.empty, String.append_empty, String.empty_append]]
      exact joinSep_wrapPre "." (a :: t) (List.cons_ne_nil a t)

/-- C7 witness: two class, attr and pseudoClass calls each succeed from a
fresh builder, in insertion order. -/
theorem c7_witness :
    (∃ b', runChain Builder.fresh (chainOf .«class» ["m", "n"]) = .ok b' ∧
      b'.current = { Builder.fresh.current with
        classes := Builder.fresh.current.classes ++ ["m", "n"] } ∧
      b'.combined = Builder.fresh.combined) ∧
    (∃ b', runChain Builder.fresh (chainOf .attr ["m", "n"]) = .ok b' ∧
      b'.current = { Builder.fresh.current with
        attributes := Builder.fresh.current.attributes ++ ["m", "n"] } ∧
      b'.combined = Builder.fresh.combined) ∧
    (∃ b', runChain Builder.fresh (chainOf .pseudoClass ["m", "n"]) = .ok b' ∧
      b'.current = { Builder.fresh.current with
        pseudoClasses := Builder.fresh.current.pseudoClasses ++ ["m", "n"] } ∧
      b'.combined = Builder.fresh.combined) ∧
    (∃ b', runChain Builder.fresh (chainOf .«class» ["m", "n"]) = .ok b' ∧
      (b'.stringify).1 = strConcat ((["m", "n"] : List String).map (fun v => "." ++ v))) :=
  ⟨(c7_repeatable_kinds Builder.fresh ["m", "n"]).1 (by decide),
   (c7_repeatable_kinds Builder.fresh ["m", "n"]).2.1 (by decide),
   (c7_repeatable_kinds Builder.fresh ["m", "n"]).2.2.1 (by decide),
   (c7_repeatable_kinds Builder.fresh ["m", "n"]).2.2.2 (by decide)⟩

/-- C8: every facade factory call constructs a new builder in the fresh state
before applying the operation: each part factory succeeds and returns exactly
the fresh state extended with the single requested part — a value depending
only on the call's own argument, so separate chains cannot share state — and
the facade combine is combine on a fresh builder. -/
theorem c8_facade_starts_fresh (v : String) (s1 : Builder) (c : String) (s2 : Builder) :
    CSS.element v = Builder.fresh.element v ∧
    CSS.element v = .ok ⟨0, ⟨v, "", [], [], [], ""⟩, ""⟩ ∧
    CSS.id v = .ok ⟨1, ⟨"", v, [], [], [], ""⟩, ""⟩ ∧
    CSS.«class» v = .ok ⟨2, ⟨"", "", [v], [], [], ""⟩, ""⟩ ∧
    CSS.attr v = .ok ⟨3, ⟨"", "", [], [v], [], ""⟩, ""⟩ ∧
    CSS.pseudoClass v = .ok ⟨4, ⟨"", "", [], [], [v], ""⟩, ""⟩ ∧
    CSS.pseudoElement v = .ok ⟨5, ⟨"", "", [], [], [], v⟩, ""⟩ ∧
    CSS.combine s1 c s2 = Builder.fresh.combine s1 c s2 :=
  ⟨rfl, rfl, rfl, rfl, rfl, rfl, rfl, rfl⟩

/-- C9: the cardinality check is a truthiness test, not a was-set test — when
a singleton field holds the empty string, a same-kind call (admissible for the
recorded rank) raises no duplicate error and silently overwrites the stored
value. -/
theorem c9_truthy_check_overwrites (b : Builder) (k : PartKind) (v : String)
    (hs : k.isSingleton = true) (hord : b.order ≤ k.rank)
    (hempty : sfield k b.current = "") :
    callPart k b v = .ok { b with order := k.rank, current := applyPart b.current (k, v) } ∧
    sfield k (applyPart b.current (k, v)) = v := by
  refine ⟨callPart_ok k b v hord (fun _ => hempty), ?_⟩
  cases k <;> simp_all [sfield, applyPart, PartKind.isSingleton]

/-- C9 witness: after element with the empty string, a second element call
succeeds and overwrites. -/
theorem c9_witness :
    Builder.fresh.element "" = .ok ⟨0, Selector.empty, ""⟩ ∧
    callPart .element ⟨0, Selector.empty, ""⟩ "span" =
      .ok ⟨0, ⟨"span", "", [], [], [], ""⟩, ""⟩ ∧
    sfield .element (applyPart Selector.empty (.element, "span")) = "span" :=
  ⟨rfl,
   (c9_truthy_check_overwrites ⟨0, Selector.empty, ""⟩ .element "span" rfl (by decide) rfl).1,
   (c9_truthy_check_overwrites ⟨0, Selector.empty, ""⟩ .element "span" rfl (by decide) rfl).2⟩

/-- Any failing part-adding call leaves behind exactly the reset-on-error
state. -/
theorem callPart_error_state (k : PartKind) (b : Builder) (v : String) (e : Err)
    (b' : Builder) (h : callPart k b v = .error (e, b')) : b' = b.resetOnError := by
  cases k <;>
    simp only [callPart, Builder.element, Builder.id, Builder.«class», Builder.attr,
      Builder.pseudoClass, Builder.pseudoElement] at h <;>
    split at h <;>
    (try split at h) <;>
    simp_all [Except.error.injEq, Prod.mk.injEq]

/-- C10: a failing part-adding call (ordering or cardinality failure) clears
only the rank and the accumulator, never the stored combined text; when
combined text was set, a later stringify on the builder the error left behind
still returns the combined string. -/
theorem c10_error_keeps_combined (b : Builder) (k : PartKind) (v : String)
    (e : Err) (b' : Builder) (h : callPart k b v = .error (e, b')) :
    b'.combined = b.combined ∧
    (b.combined ≠ "" → (b'.stringify).1 = b.combined) := by
  have hb' := callPart_error_state k b v e b' h
  subst hb'
  refine ⟨rfl, ?_⟩
  intro hne
  simp [Builder.stringify, Builder.resetOnError, hne]

/-- C10 witness: a builder holding combined text, hit by an ordering error,
keeps the combined text and still renders it. -/
theorem c10_witness :
    ((⟨-1, Selector.empty, "a + b"⟩ : Builder)).combined =
      ((⟨2, ⟨"", "", ["x"], [], [], ""⟩, "a + b"⟩ : Builder)).combined ∧
    (((⟨-1, Selector.empty, "a + b"⟩ : Builder)).stringify).1 =
      ((⟨2, ⟨"", "", ["x"], [], [], ""⟩, "a + b"⟩ : Builder)).combined :=
  ⟨(c10_error_keeps_combined ⟨2, ⟨"", "", ["x"], [], [], ""⟩, "a + b"⟩ .element "y"
      .orderViolation ⟨-1, Selector.empty, "a + b"⟩ rfl).1,
   (c10_error_keeps_combined ⟨2, ⟨"", "", ["x"], [], [], ""⟩, "a + b"⟩ .element "y"
      .orderViolation ⟨-1, Selector.empty, "a + b"⟩ rfl).2 (by decide)⟩

/-- Sanity: the first documented example of the source. -/
example :
    (do
      let b ← CSS.id "main"
      let b ← b.«class» "container"
      let b ← b.«class» "editable"
      pure b.stringify.1 : Except (Err × Builder) String) = .ok "#main.container.editable" := rfl

/-- Sanity: the second documented example of the source. -/
example :
    (do
      let b ← CSS.element "a"
      let b ← b.attr "href$=\".png\""
      let b ← b.pseudoClass "focus"
      pure b.stringify.1 : Except (Err × Builder) String) = .ok "a[href$=\".png\"]:focus" := rfl
